import Mathlib

/-!
Shallow embedding of the ICE_Correctness_Rating repository
(`src/utils/utils.py` and `src/ice_correctness_rating_bms.py`).

Strings are modelled as `List Char`; the Python string operations used by
the source (`in`, `find`, `rfind`, slicing, `replace`, `splitlines`,
`os.path.join`) are given explicit executable definitions below, and the
repository's functions are translated line by line on top of them.
-/

/-- Python strings are modelled as lists of characters. -/
abbrev Str := List Char

/-- Python's `pat in s` substring test (`True` for the empty pattern). -/
def hasSub : Str → Str → Bool
  | [], pat => pat.isEmpty
  | s@(_ :: rest), pat => pat.isPrefixOf s || hasSub rest pat

/-- Fuel-driven recursion for Python's `str.replace` with a non-empty
pattern `p0 :: pt`: leftmost, non-overlapping, replaces all occurrences.
The fuel only forces structural termination; any fuel at least the length
of the scanned string gives the same result (`replaceAuxF_fuel`). -/
def replaceAuxF (p0 : Char) (pt new : Str) : Nat → Str → Str
  | _, [] => []
  | 0, s => s
  | fuel + 1, c :: rest =>
    if (p0 :: pt).isPrefixOf (c :: rest) then
      new ++ replaceAuxF p0 pt new fuel (rest.drop pt.length)
    else c :: replaceAuxF p0 pt new fuel rest

/-- Python's `str.replace` scan for a non-empty pattern `p0 :: pt`. -/
def replaceAux (p0 : Char) (pt new : Str) (s : Str) : Str :=
  replaceAuxF p0 pt new s.length s

/-- Python's `s.replace(old, new)` (all occurrences; for an empty `old`,
Python inserts `new` around every character). -/
def pyReplace (s old new : Str) : Str :=
  match old with
  | [] => new ++ s.flatMap (fun c => c :: new)
  | p0 :: pt => replaceAux p0 pt new s

/-- Fuel-driven count of leftmost non-overlapping occurrences of `p0 :: pt`. -/
def countSubAuxF (p0 : Char) (pt : Str) : Nat → Str → Nat
  | _, [] => 0
  | 0, _ => 0
  | fuel + 1, c :: rest =>
    if (p0 :: pt).isPrefixOf (c :: rest) then 1 + countSubAuxF p0 pt fuel (rest.drop pt.length)
    else countSubAuxF p0 pt fuel rest

/-- Number of leftmost non-overlapping occurrences of `p0 :: pt` in `s`. -/
def countSubAux (p0 : Char) (pt : Str) (s : Str) : Nat :=
  countSubAuxF p0 pt s.length s

/-- Occurrence count of a pattern in a string (Python `s.count(pat)`). -/
def countSub (s pat : Str) : Nat :=
  match pat with
  | [] => s.length + 1
  | p0 :: pt => countSubAux p0 pt s

/-- Python's `str.splitlines` restricted to `'\n'` separators: a final
line terminator does not produce a trailing empty line. -/
def splitlinesAux : Str → Str → List Str
  | [], cur => if cur.isEmpty then [] else [cur]
  | '\n' :: rest, cur => cur :: splitlinesAux rest []
  | c :: rest, cur => splitlinesAux rest (cur ++ [c])

/-- Python's `s.splitlines()` (for `'\n'`-separated text). -/
def splitlines (s : Str) : List Str := splitlinesAux s []

/-- Python's `s.find(c)` for a one-character pattern: first index, `-1` if absent. -/
def pyFind (s : Str) (c : Char) : Int :=
  match s.findIdx? (· = c) with
  | some n => (n : Int)
  | none => -1

/-- Python's `s.rfind(c)` for a one-character pattern: last index, `-1` if absent. -/
def pyRfind (s : Str) (c : Char) : Int :=
  match s.reverse.findIdx? (· = c) with
  | some n => (s.length : Int) - 1 - (n : Int)
  | none => -1

/-- Normalisation of a Python slice index against a length `n`:
negative indices count from the end, and everything is clamped to `[0, n]`. -/
def pySliceIdx (n : Nat) (i : Int) : Nat :=
  if i < 0 then ((n : Int) + i).toNat else min i.toNat n

/-- Python's `s[a:b]` slice. -/
def pySlice (s : Str) (a b : Int) : Str :=
  (s.take (pySliceIdx s.length b)).drop (pySliceIdx s.length a)

/-- `posixpath.join` for two components, as used via `os.path.join`. -/
def osPathJoin (a b : Str) : Str :=
  if b.head? = some '/' then b
  else if a.isEmpty then b
  else if a.getLast? = some '/' then a ++ b
  else a ++ '/' :: b

/-- The single-quote character. -/
def sglQuote : Char := Char.ofNat 39

/-- The double-quote character. -/
def dblQuote : Char := Char.ofNat 34

/-- The triple-backtick fence marker. -/
def tickTok : Str := "```".toList

/-- The dataset extension marker searched for by the path rewriter. -/
def csvTok : Str := ".csv".toList

/-- The interactive-display token searched for by `replace_show_with_savefig`. -/
def showTok : Str := ".show()".toList

/-- The loop of `get_code` (utils.py lines 28-44): state machine over the
lines with accumulator `code`, flags `is_code` and `is_first_line`;
a second fence line returns the accumulated code (the `break`). -/
def getCodeAux : List Str → Str → Bool → Bool → Str
  | [], code, _, _ => code
  | line :: rest, code, is_code, is_first_line =>
    if !hasSub line tickTok && !is_code then getCodeAux rest code is_code is_first_line
    else if hasSub line tickTok && !is_code then getCodeAux rest code true true
    else if hasSub line tickTok && is_code then code
    else getCodeAux rest (code ++ (if is_first_line then [] else ['\n']) ++ line) is_code false

/-- `get_code` (utils.py lines 10-46): extract the first fenced code block. -/
def get_code (model_a_response : Str) : Str :=
  getCodeAux (splitlines model_a_response) [] false false

/-- The quoted-substring extraction of `update_dataset_local_path`
(utils.py lines 67-70): prefer a single quote if present, else a double
quote, and slice strictly between its first and last occurrence. -/
def extractWrong (line : Str) : Str :=
  let quote_symbol := if hasSub line [sglQuote] then sglQuote else dblQuote
  pySlice line (pyFind line quote_symbol + 1) (pyRfind line quote_symbol)

/-- The scan loop of `update_dataset_local_path` (utils.py lines 65-75):
on the first `'.csv'`-bearing line whose extracted substring is non-empty,
replace it inside the line and replace the line inside the whole code,
then stop; otherwise keep scanning. -/
def udlpLoop (path : Str) : List Str → Str → Str
  | [], code => code
  | line :: rest, code =>
    if hasSub line csvTok then
      let wrong_path := extractWrong line
      if wrong_path.length > 0 then
        pyReplace code line (pyReplace line wrong_path path)
      else udlpLoop path rest code
    else udlpLoop path rest code

/-- `update_dataset_local_path` (utils.py lines 49-77). -/
def update_dataset_local_path (code filename datasets_path : Str) : Str :=
  udlpLoop (osPathJoin datasets_path filename) (splitlines code) code

/-- The replacement text built by `replace_show_with_savefig`
(utils.py lines 113-114): `'.savefig("' + image_path + '")'` with
`image_path = os.path.join(output_images_path, id + '.png')`. -/
def mkSavefigCall (output_images_path id : Str) : Str :=
  ".savefig(".toList ++ [dblQuote] ++ osPathJoin output_images_path (id ++ ".png".toList) ++ [dblQuote, ')']

/-- `replace_show_with_savefig` (utils.py lines 97-115). -/
def replace_show_with_savefig (code id output_images_path : Str) : Str :=
  if hasSub code showTok then pyReplace code showTok (mkSavefigCall output_images_path id)
  else code

/-- Modelled from the spec: the behaviour of CPython's `exec(code)` inside
`execute_code` cannot itself be shallowly embedded, so the outcome of one
execution is taken as a parameter: either normal completion with the
captured stdout, or a raised `SyntaxError` (whose own `lineno` field the
handler reads), or any other exception (whose traceback frame line numbers
the handler indexes).  `args` is the exception's `args` tuple, each
argument rendered as its string form. -/
inductive ExecOutcome where
  | ok (stdout : Str)
  | syntaxError (error_class : Str) (args : List Str) (lineno : Nat)
  | exc (error_class : Str) (args : List Str) (tbLineNumbers : List Nat)
  deriving DecidableEq

/-- An exception escaping `execute_code` itself: the handler's unguarded
`err.args[0]` / `traceback.extract_tb(tb)[1]` indexing raises `IndexError`. -/
inductive PyExn where
  | indexError
  deriving DecidableEq

/-- The two artifacts `execute_code` manages for one identifier:
`<errors_dir>/<id>_error.txt` and `<outputs_dir>/<id>_output.txt`,
each `none` when absent and `some content` when present. -/
structure FS where
  errorFile : Option Str
  outputFile : Option Str
  deriving DecidableEq

/-- Decimal rendering of a line number, as Python's f-string does. -/
def natToStr (n : Nat) : Str := (Nat.repr n).toList

/-- The error description `f"{error_class} at line {line_number}: {detail}"`
(utils.py line 169). -/
def fmtErrorDesc (error_class : Str) (line_number : Nat) (detail : Str) : Str :=
  error_class ++ " at line ".toList ++ natToStr line_number ++ ": ".toList ++ detail

/-- `execute_code` (utils.py lines 118-183) over the outcome of `exec` and
the artifact state for the given identifier.  When `save_output` is set,
both pre-existing artifacts are removed (`suppress(FileNotFoundError)`)
before execution; afterwards an error description is written on failure,
and the captured output is written only when non-empty.  An exception with
an empty `args` tuple makes the handler's `err.args[0]` raise `IndexError`,
as does `traceback.extract_tb(tb)[1]` on a traceback of fewer than two
frames; either propagates out of `execute_code`. -/
def execute_code (outcome : ExecOutcome) (save_output : Bool) (fs : FS) :
    Except PyExn (Str × FS) :=
  let fs1 := if save_output then { errorFile := none, outputFile := none } else fs
  match outcome with
  | .ok output =>
    let fs2 := if save_output && !output.isEmpty then { fs1 with outputFile := some output } else fs1
    .ok (output, fs2)
  | .syntaxError error_class args lineno =>
    match args.head? with
    | none => .error .indexError
    | some detail =>
      let error_desc := fmtErrorDesc error_class lineno detail
      let fs2 := if save_output then { fs1 with errorFile := some error_desc } else fs1
      .ok (error_desc, fs2)
  | .exc error_class args tbLineNumbers =>
    match args.head? with
    | none => .error .indexError
    | some detail =>
      match tbLineNumbers with
      | _ :: line_number :: _ =>
        let error_desc := fmtErrorDesc error_class line_number detail
        let fs2 := if save_output then { fs1 with errorFile := some error_desc } else fs1
        .ok (error_desc, fs2)
      | _ => .error .indexError

/-- The observable effects of one iteration of the row loop in
`extract_and_save_scripts_from_sheets` (ice_correctness_rating_bms.py
lines 17-28): the script file written by `save_script` (its content), the
skip log line, and the artifact state left by `execute_code`. -/
structure RowResult where
  scriptFile : Option Str
  logSkipped : Bool
  fs : FS
  deriving DecidableEq

/-- One iteration of the row loop of `extract_and_save_scripts_from_sheets`
(ice_correctness_rating_bms.py lines 21-28): a truthy (non-empty) code
cell runs the full pipeline and executes with `save_output=True`; an empty
cell only prints the skip notice.  `outcome` stands for the behaviour of
`exec` on the finished code. -/
def process_row (code_column dataset_name id datasets_path output_images_path : Str)
    (outcome : ExecOutcome) (fs : FS) : Except PyExn RowResult :=
  if !code_column.isEmpty then
    let code := get_code code_column
    let code2 := update_dataset_local_path code dataset_name datasets_path
    let code3 := replace_show_with_savefig code2 id output_images_path
    match execute_code outcome true fs with
    | .error e => .error e
    | .ok (_, fs2) => .ok { scriptFile := some code3, logSkipped := false, fs := fs2 }
  else
    .ok { scriptFile := none, logSkipped := true, fs := fs }

/-! ### Basic lemmas about the string operations -/

theorem replaceAuxF_fuel (p0 : Char) (pt new : Str) :
    ∀ (f1 : Nat), ∀ {f2 : Nat} {s : Str}, s.length ≤ f1 → s.length ≤ f2 →
      replaceAuxF p0 pt new f1 s = replaceAuxF p0 pt new f2 s := by
  intro f1
  induction f1 with
  | zero =>
    intro f2 s h1 _
    have : s = [] := List.length_eq_zero.mp (Nat.le_zero.mp h1)
    subst this
    cases f2 <;> rfl
  | succ f1' ih =>
    intro f2 s h1 h2
    cases s with
    | nil => cases f2 <;> rfl
    | cons c rest =>
      cases f2 with
      | zero => simp at h2
      | succ f2' =>
        simp only [List.length_cons, Nat.add_le_add_iff_right] at h1 h2
        rw [replaceAuxF, replaceAuxF]
        have hd : (rest.drop pt.length).length ≤ f1' :=
          le_trans (by simp [List.length_drop]) h1
        have hd2 : (rest.drop pt.length).length ≤ f2' :=
          le_trans (by simp [List.length_drop]) h2
        rw [ih hd hd2, ih h1 h2]

theorem replaceAux_nil (p0 : Char) (pt new : Str) : replaceAux p0 pt new [] = [] := rfl

theorem replaceAux_cons (p0 : Char) (pt new : Str) (c : Char) (rest : Str) :
    replaceAux p0 pt new (c :: rest)
      = if (p0 :: pt).isPrefixOf (c :: rest) then
          new ++ replaceAux p0 pt new (rest.drop pt.length)
        else c :: replaceAux p0 pt new rest := by
  rw [replaceAux, List.length_cons, replaceAuxF, replaceAux, replaceAux]
  rw [replaceAuxF_fuel p0 pt new rest.length (by simp [List.length_drop])
    (le_refl (rest.drop pt.length).length)]

theorem replaceAux_self (p : Char) (pt : Str) (s : Str) :
    replaceAux p pt (p :: pt) s = s := by
  have main : ∀ (n : Nat) (s : Str), s.length ≤ n → replaceAux p pt (p :: pt) s = s := by
    intro n
    induction n with
    | zero =>
      intro s h
      have : s = [] := List.length_eq_zero.mp (Nat.le_zero.mp h)
      subst this
      rfl
    | succ n' ih =>
      intro s h
      cases s with
      | nil => rfl
      | cons c rest =>
        simp only [List.length_cons, Nat.add_le_add_iff_right] at h
        rw [replaceAux_cons]
        by_cases hc : (p :: pt).isPrefixOf (c :: rest) = true
        · rw [if_pos hc]
          have hp : (p :: pt) <+: (c :: rest) := ( List.isPrefixOf_iff_prefix).mp hc
          obtain ⟨t, ht⟩ := hp
          have hdrop : rest.drop pt.length = t := by
            have h2 := congrArg (List.drop (p :: pt).length) ht
            rw [List.drop_left] at h2
            simpa using h2.symm
          have hlen : t.length ≤ n' := by
            have := congrArg List.length ht
            simp [List.length_append] at this
            omega
          rw [hdrop, ih t hlen]
          exact ht
        · rw [if_neg hc, ih rest h]
  exact main s.length s (le_refl _)

/-- Python's `s.replace(t, t)` is the identity. -/
theorem pyReplace_self (s p : Str) : pyReplace s p p = s := by
  cases p with
  | nil =>
    rw [pyReplace]
    induction s with
    | nil => rfl
    | cons c rest ih => simp
  | cons p0 pt => exact replaceAux_self p0 pt s

theorem hasSub_nil (pat : Str) : hasSub [] pat = pat.isEmpty := rfl

theorem hasSub_cons (c : Char) (r pat : Str) :
    hasSub (c :: r) pat = (pat.isPrefixOf (c :: r) || hasSub r pat) := rfl

theorem hasSub_of_isPrefix {pat s : Str} (h : pat <+: s) : hasSub s pat = true := by
  cases s with
  | nil =>
    rw [List.prefix_nil] at h
    simp [h, hasSub]
  | cons c r =>
    rw [hasSub_cons, Bool.or_eq_true]
    exact Or.inl (( List.isPrefixOf_iff_prefix).mpr h)

theorem hasSub_cons_right {r pat : Str} (c : Char) (h : hasSub r pat = true) :
    hasSub (c :: r) pat = true := by
  rw [hasSub_cons, Bool.or_eq_true]
  exact Or.inr h

/-- A prefix of a concatenation is a prefix of the left part, or extends it. -/
theorem prefix_append_cases :
    ∀ (x : Str) {y pat : Str}, pat <+: x ++ y →
      pat <+: x ∨ ∃ v, pat = x ++ v ∧ v <+: y := by
  intro x
  induction x with
  | nil =>
    intro y pat h
    exact Or.inr ⟨pat, rfl, h⟩
  | cons c x' ih =>
    intro y pat h
    cases pat with
    | nil => exact Or.inl ( List.nil_prefix)
    | cons p pt =>
      rw [List.cons_append, List.cons_prefix_cons] at h
      obtain ⟨rfl, h2⟩ := h
      rcases ih h2 with h3 | ⟨v, rfl, hv⟩
      · exact Or.inl (List.cons_prefix_cons.mpr ⟨rfl, h3⟩)
      · exact Or.inr ⟨v, rfl, hv⟩

/-- An occurrence of `pat` in `a ++ b` lies in `a`, lies in `b`, or spans
the boundary with a non-empty part on each side. -/
theorem hasSub_append_split :
    ∀ (a : Str) {b pat : Str}, hasSub (a ++ b) pat = true →
      hasSub a pat = true ∨ hasSub b pat = true ∨
        ∃ u v, u ++ v = pat ∧ u ≠ [] ∧ v ≠ [] ∧ u <:+ a ∧ v <+: b := by
  intro a
  induction a with
  | nil =>
    intro b pat h
    exact Or.inr (Or.inl h)
  | cons c a' ih =>
    intro b pat h
    rw [List.cons_append, hasSub_cons, Bool.or_eq_true] at h
    rcases h with h | h
    · have hpre : pat <+: (c :: (a' ++ b)) := ( List.isPrefixOf_iff_prefix).mp h
      rw [← List.cons_append] at hpre
      rcases prefix_append_cases (c :: a') hpre with h2 | ⟨v, rfl, hv⟩
      · exact Or.inl (hasSub_of_isPrefix h2)
      · cases v with
        | nil =>
          have : (c :: a') ++ ([] : Str) <+: c :: a' := by simp
          exact Or.inl (hasSub_of_isPrefix this)
        | cons v0 vt =>
          refine Or.inr (Or.inr ⟨c :: a', v0 :: vt, rfl, by simp, by simp, List.suffix_rfl, hv⟩)
    · rcases ih h with h2 | h2 | ⟨u, v, huv, hu, hv, hsuf, hpre⟩
      · exact Or.inl (hasSub_cons_right c h2)
      · exact Or.inr (Or.inl h2)
      · exact Or.inr (Or.inr ⟨u, v, huv, hu, hv, hsuf.trans (List.suffix_cons c a'), hpre⟩)

/-- A non-empty suffix has the same last element. -/
theorem getLast?_of_suffix {u v : Str} (h : u <:+ v) (hu : u ≠ []) :
    u.getLast? = v.getLast? := by
  obtain ⟨w, rfl⟩ := h
  rw [List.getLast?_append]
  cases h2 : u.getLast? with
  | none => exact absurd (List.getLast?_eq_none_iff.mp h2) hu
  | some a => simp

/-! ### Lemmas about the `get_code` state machine -/

theorem getCodeAux_skip :
    ∀ (pre : List Str) {r : List Str} {code : Str} {fl : Bool},
      (∀ l ∈ pre, hasSub l tickTok = false) →
      getCodeAux (pre ++ r) code false fl = getCodeAux r code false fl := by
  intro pre
  induction pre with
  | nil => intro r code fl _; rfl
  | cons l pre' ih =>
    intro r code fl h
    have hl := h l (by simp)
    rw [List.cons_append, getCodeAux]
    simp only [hl]
    exact ih fun x hx => h x (by simp [hx])

theorem getCodeAux_body :
    ∀ (body : List Str) {r : List Str} {code : Str},
      (∀ l ∈ body, hasSub l tickTok = false) →
      getCodeAux (body ++ r) code true false
        = getCodeAux r (code ++ body.flatMap (fun l => '\n' :: l)) true false := by
  intro body
  induction body with
  | nil => intro r code _; simp
  | cons b bs ih =>
    intro r code h
    have hb := h b (by simp)
    rw [List.cons_append, getCodeAux]
    simp only [hb, Bool.false_and, Bool.not_true, Bool.not_false, Bool.true_and,
      Bool.and_false, Bool.and_true, if_false, ite_false, Bool.false_eq_true]
    rw [ih fun x hx => h x (by simp [hx])]
    simp [List.append_assoc]

theorem intercalate_newline (b : Str) (bs : List Str) :
    List.intercalate ['\n'] (b :: bs) = b ++ bs.flatMap (fun l => '\n' :: l) := by
  induction bs generalizing b with
  | nil => simp [List.intercalate]
  | cons x xs ih =>
    have := ih x
    rw [List.intercalate] at this ⊢
    simp only [List.intersperse_cons₂, List.flatten_cons]
    rw [this]
    simp

/-! ### Claim C1 and C5: the Code Extractor -/

/-- Claim C1, as stated, is false on the code: for the input consisting of a
single triple-backtick marker line followed by `hello`, the scan opens the
block and accumulates every following line, and the loop's final `return
code` hands the accumulated text back, so `get_code` returns `"hello"`,
not the empty string. -/
theorem get_code_one_marker_cex :
    countSub ("```\nhello".toList) tickTok = 1 ∧
      get_code ("```\nhello".toList) = "hello".toList ∧
      get_code ("```\nhello".toList) ≠ [] := by
  refine ⟨by decide, by decide, by decide⟩

/-- Claim C1 (amended): for an input with exactly one marker-bearing line (an
unterminated fenced block), `get_code` returns all lines after the marker
line joined by newline — the empty string exactly when nothing follows the
marker line. -/
theorem get_code_unterminated_block (input : Str) (pre : List Str) (opener : Str)
    (body : List Str)
    (hsplit : splitlines input = pre ++ opener :: body)
    (hpre : ∀ l ∈ pre, hasSub l tickTok = false)
    (hop : hasSub opener tickTok = true)
    (hbody : ∀ l ∈ body, hasSub l tickTok = false) :
    get_code input = List.intercalate ['\n'] body := by
  rw [get_code, hsplit, getCodeAux_skip pre hpre, getCodeAux]
  simp only [hop, Bool.not_false, Bool.not_true, Bool.true_and, Bool.false_and,
    Bool.and_false, Bool.and_true, ite_true, ite_false, Bool.true_eq_false, Bool.false_eq_true]
  cases body with
  | nil => rfl
  | cons b bs =>
    have hb := hbody b (by simp)
    rw [getCodeAux]
    simp only [hb, Bool.not_true, Bool.not_false, Bool.false_and, Bool.true_and,
      Bool.and_true, Bool.and_false, ite_true, ite_false, Bool.false_eq_true]
    conv_lhs => rw [← List.append_nil bs]
    rw [getCodeAux_body bs (fun x hx => hbody x (by simp [hx]))]
    simp [getCodeAux, intercalate_newline]

/-- Witness for the amended C1 at a concrete unterminated input. -/
theorem get_code_unterminated_block_witness :
    get_code ("text\n```python\nx = 1\ny = 2".toList)
      = List.intercalate ['\n'] ["x = 1".toList, "y = 2".toList] :=
  get_code_unterminated_block _ ["text".toList] ("```python".toList)
    ["x = 1".toList, "y = 2".toList] (by decide) (by decide) (by decide) (by decide)

/-- Claim C5: for an input whose lines decompose as marker-free prefix lines,
an opening marker line, marker-free BODY lines, a closing marker line, and
an arbitrary tail, `get_code` returns exactly the BODY lines joined by
newline, with no trailing newline and the opening-marker line excluded. -/
theorem get_code_well_formed_block (input : Str) (pre : List Str) (opener : Str)
    (body : List Str) (closer : Str) (tail : List Str)
    (hsplit : splitlines input = pre ++ opener :: (body ++ closer :: tail))
    (hpre : ∀ l ∈ pre, hasSub l tickTok = false)
    (hop : hasSub opener tickTok = true)
    (hbody : ∀ l ∈ body, hasSub l tickTok = false)
    (hcl : hasSub closer tickTok = true) :
    get_code input = List.intercalate ['\n'] body := by
  rw [get_code, hsplit, getCodeAux_skip pre hpre, getCodeAux]
  simp only [hop, Bool.not_false, Bool.not_true, Bool.true_and, Bool.false_and,
    Bool.and_false, Bool.and_true, ite_true, ite_false, Bool.true_eq_false, Bool.false_eq_true]
  cases body with
  | nil =>
    rw [List.nil_append, getCodeAux]
    simp [hcl, List.intercalate]
  | cons b bs =>
    have hb := hbody b (by simp)
    rw [List.cons_append, getCodeAux]
    simp only [hb, Bool.not_true, Bool.not_false, Bool.false_and, Bool.true_and,
      Bool.and_true, Bool.and_false, ite_true, ite_false, Bool.false_eq_true]
    rw [getCodeAux_body bs (fun x hx => hbody x (by simp [hx]))]
    rw [getCodeAux, intercalate_newline]
    simp [hcl]

/-- Witness for C5 at the spec's example shape
`prefix ␣```lang \n BODY \n ``` suffix`. -/
theorem get_code_well_formed_block_witness :
    get_code ("Here is some text...\n```python\nx = 1\nprint(x)\n``` More text...".toList)
      = List.intercalate ['\n'] ["x = 1".toList, "print(x)".toList] :=
  get_code_well_formed_block _ ["Here is some text...".toList] ("```python".toList)
    ["x = 1".toList, "print(x)".toList] ("``` More text...".toList) []
    (by decide) (by decide) (by decide) (by decide) (by decide)

/-! ### The Path Rewriter scan -/

/-- Lines that do not carry `'.csv'`, or whose extracted quoted substring is
empty, are passed over by the scan of `update_dataset_local_path`. -/
theorem udlpLoop_skip :
    ∀ (pre : List Str) {r : List Str} {code path : Str},
      (∀ l ∈ pre, hasSub l csvTok = false ∨ extractWrong l = []) →
      udlpLoop path (pre ++ r) code = udlpLoop path r code := by
  intro pre
  induction pre with
  | nil => intro r code path _; rfl
  | cons l pre' ih =>
    intro r code path h
    rcases h l (by simp) with hl | hl
    · rw [List.cons_append, udlpLoop]
      simp only [hl, Bool.false_eq_true, if_false]
      exact ih fun x hx => h x (by simp [hx])
    · rw [List.cons_append, udlpLoop]
      simp only [hl]
      have : ∀ b : Bool, (if b = true then
          (if ([] : Str).length > 0 then
            pyReplace code l (pyReplace l [] path)
          else udlpLoop path (pre' ++ r) code)
          else udlpLoop path (pre' ++ r) code) = udlpLoop path (pre' ++ r) code := by
        intro b
        cases b <;> simp
      rw [this]
      exact ih fun x hx => h x (by simp [hx])

/-- If every `'.csv'`-bearing line of the scan either extracts the empty
substring or extracts exactly `path`, the whole scan leaves the code
untouched (replacing a substring by itself is the identity). -/
theorem udlpLoop_fix :
    ∀ (lines : List Str) {code path : Str},
      (∀ l ∈ lines, hasSub l csvTok = true → extractWrong l = [] ∨ extractWrong l = path) →
      udlpLoop path lines code = code := by
  intro lines
  induction lines with
  | nil => intro code path _; rfl
  | cons l rest ih =>
    intro code path h
    rw [udlpLoop]
    by_cases hl : hasSub l csvTok = true
    · simp only [hl, if_true]
      rcases h l (by simp) hl with he | he
      · simp only [he]
        simp only [List.length_nil, gt_iff_lt, Nat.lt_irrefl, if_false]
        exact ih fun x hx hc => h x (by simp [hx]) hc
      · rw [he]
        by_cases hp : path.length > 0
        · rw [if_pos hp, pyReplace_self, pyReplace_self]
        · rw [if_neg hp]
          exact ih fun x hx hc => h x (by simp [hx]) hc
    · simp only [hl]
      simp only [Bool.false_eq_true, if_false]
      exact ih fun x hx hc => h x (by simp [hx]) hc

/-! ### Claims C3, C4, C9: the Path Rewriter -/

/-- Claim C3, as stated, is false on the code: the line `read .csv now`
contains no quote character at all, so `find` and `rfind` both return `-1`
and the slice `line[start+1:end]` is `line[0:-1]`, the whole line minus
its last character — a non-empty "path" that does get replaced.  The
function rewrites the code to `ds/data.csvw` instead of returning it
unchanged. -/
theorem update_no_quote_cex :
    hasSub ("read .csv now".toList) [sglQuote] = false ∧
    hasSub ("read .csv now".toList) [dblQuote] = false ∧
    hasSub ("read .csv now".toList) csvTok = true ∧
    update_dataset_local_path ("read .csv now".toList) ("data.csv".toList) ("ds".toList)
      = "ds/data.csvw".toList ∧
    update_dataset_local_path ("read .csv now".toList) ("data.csv".toList) ("ds".toList)
      ≠ "read .csv now".toList := by
  refine ⟨by decide, by decide, by decide, by decide, by decide⟩

/-- Claim C3 (amended): if every `'.csv'`-bearing line of the code yields an
empty extracted quoted substring (the slice between the first and last
occurrence of the chosen quote character is empty — which requires the
quote character to occur, since with no quote the slice is the line minus
its final character), then `update_dataset_local_path` performs no rewrite
and returns the code unchanged. -/
theorem update_no_rewrite_empty_extract (code filename datasets_path : Str)
    (h : ∀ l ∈ splitlines code, hasSub l csvTok = true → extractWrong l = []) :
    update_dataset_local_path code filename datasets_path = code := by
  rw [update_dataset_local_path]
  exact udlpLoop_fix (splitlines code) fun l hl hc => Or.inl (h l hl hc)

/-- Witness for the amended C3: a `'.csv'`-bearing line whose single-quote
pair encloses nothing. -/
theorem update_no_rewrite_empty_extract_witness :
    update_dataset_local_path (".csv ''".toList) ("data.csv".toList) ("ds".toList)
      = ".csv ''".toList :=
  update_no_rewrite_empty_extract _ _ _ (by decide)

/-- Claim C4, as stated, is false on the code: the replacement is
`code.replace(line, line.replace(wrong_path, path))`, a whole-line
replacement, so an occurrence of the old path on a *different* line (here
the comment `# 'a.csv'`) survives. -/
theorem update_other_lines_cex :
    update_dataset_local_path ("pd.read_csv('a.csv')\n# 'a.csv'".toList)
        ("local.csv".toList) ("ds".toList)
      = "pd.read_csv('ds/local.csv')\n# 'a.csv'".toList ∧
    hasSub (update_dataset_local_path ("pd.read_csv('a.csv')\n# 'a.csv'".toList)
        ("local.csv".toList) ("ds".toList)) ("'a.csv'".toList) = true := by
  refine ⟨by decide, by decide⟩

/-- Claim C4 (amended): when the first triggering line `L` (a `'.csv'`-bearing
line with a non-empty extracted quoted substring, all earlier lines
triggering nothing) is found, the result replaces every occurrence of the
extracted substring inside `L`, and then every occurrence of the whole
line text `L` inside the code; occurrences of the old path on other,
different lines are not replaced. -/
theorem update_first_trigger_replace (code filename datasets_path : Str)
    (pre : List Str) (L : Str) (rest : List Str)
    (hsplit : splitlines code = pre ++ L :: rest)
    (hpre : ∀ l ∈ pre, hasSub l csvTok = false ∨ extractWrong l = [])
    (hL : hasSub L csvTok = true)
    (hw : extractWrong L ≠ []) :
    update_dataset_local_path code filename datasets_path
      = pyReplace code L
          (pyReplace L (extractWrong L) (osPathJoin datasets_path filename)) := by
  rw [update_dataset_local_path, hsplit, udlpLoop_skip pre hpre, udlpLoop]
  simp only [hL, if_true]
  rw [if_pos (by simpa [List.length_pos] using hw)]

/-- Witness for the amended C4 at the counterexample input. -/
theorem update_first_trigger_replace_witness :
    update_dataset_local_path ("pd.read_csv('a.csv')\n# comment".toList)
        ("local.csv".toList) ("ds".toList)
      = pyReplace ("pd.read_csv('a.csv')\n# comment".toList) ("pd.read_csv('a.csv')".toList)
          (pyReplace ("pd.read_csv('a.csv')".toList)
            (extractWrong ("pd.read_csv('a.csv')".toList))
            (osPathJoin ("ds".toList) ("local.csv".toList))) :=
  update_first_trigger_replace _ _ _ [] ("pd.read_csv('a.csv')".toList) ["# comment".toList]
    (by decide) (by decide) (by decide) (by decide)

/-- Claim C9, as stated, is false on the code: with filename `w.txt` the
resolved path `d/w.txt` carries no `'.csv'`, so the first application
rewrites the first line to `a = 'd/w.txt'` and the second application then
finds `b = 'y.csv'` as its first `'.csv'`-bearing line and rewrites it
too — the two results differ, so the rewriter is not idempotent. -/
theorem update_not_idempotent_cex :
    update_dataset_local_path
        (update_dataset_local_path ("a = 'x.csv'\nb = 'y.csv'".toList)
          ("w.txt".toList) ("d".toList))
        ("w.txt".toList) ("d".toList)
      ≠ update_dataset_local_path ("a = 'x.csv'\nb = 'y.csv'".toList)
          ("w.txt".toList) ("d".toList) := by
  decide

/-- Claim C9 (amended): a second application no-ops exactly in the
"consistent" situation the spec describes — whenever every
`'.csv'`-bearing line of the (already rewritten) code extracts either the
empty substring or exactly the resolved local path, the rewriter returns
the code unchanged, because replacing the resolved path by itself and the
line by itself are identities. -/
theorem update_second_pass_noop (code filename datasets_path : Str)
    (h : ∀ l ∈ splitlines code, hasSub l csvTok = true →
      extractWrong l = [] ∨ extractWrong l = osPathJoin datasets_path filename) :
    update_dataset_local_path code filename datasets_path = code := by
  rw [update_dataset_local_path]
  exact udlpLoop_fix (splitlines code) h

/-- Witness for the amended C9: already-rewritten code whose quoted substring
is exactly the resolved local path. -/
theorem update_second_pass_noop_witness :
    update_dataset_local_path ("x = pd.read_csv('d/f.csv')".toList)
      ("f.csv".toList) ("d".toList) = "x = pd.read_csv('d/f.csv')".toList :=
  update_second_pass_noop _ _ _ (by decide)

/-! ### Claims C2, C6, C10: the Executor; C7: the Batch Driver -/

/-- Claim C2, as stated, is false on the code: for code whose execution
succeeds with empty captured stdout, `execute_code` with persistence
deletes both pre-existing artifacts and then — because the output file is
written only `if save_output and output` — writes nothing, leaving zero
artifacts rather than exactly one. -/
theorem execute_code_empty_output_cex :
    execute_code (ExecOutcome.ok []) true ⟨some ("stale error".toList), some ("stale out".toList)⟩
      = Except.ok ([], ⟨none, none⟩) := rfl

/-- Claim C2 (amended): after `execute_code` with persistence returns
normally, both pre-existing artifacts have been deleted (the result is
independent of the prior artifact state) and at most one result is
written: the error file exactly on a classified error, the output file
exactly on success with non-empty captured output — so exactly one
artifact exists except after a success with empty output, when neither
does. -/
theorem execute_code_artifact_invariant (outcome : ExecOutcome) (fs : FS) (r : Str) (fs2 : FS)
    (h : execute_code outcome true fs = Except.ok (r, fs2)) :
    ((fs2.errorFile ≠ none ∧ fs2.outputFile = none) ∨
      (fs2.errorFile = none ∧ fs2.outputFile ≠ none) ∨
      (fs2.errorFile = none ∧ fs2.outputFile = none ∧ outcome = ExecOutcome.ok [])) ∧
    (∀ fs3 : FS, execute_code outcome true fs3 = execute_code outcome true fs) := by
  have hind : ∀ fs3 : FS, execute_code outcome true fs3 = execute_code outcome true fs := by
    intro fs3
    cases outcome <;> simp [execute_code]
  refine ⟨?_, hind⟩
  cases outcome with
  | ok out =>
    cases out with
    | nil =>
      rw [show execute_code (ExecOutcome.ok []) true fs
          = Except.ok ([], FS.mk none none) from rfl] at h
      simp only [Except.ok.injEq, Prod.mk.injEq] at h
      rw [← h.2]
      simp
    | cons c cs =>
      rw [show execute_code (ExecOutcome.ok (c :: cs)) true fs
          = Except.ok (c :: cs, FS.mk none (some (c :: cs))) from rfl] at h
      simp only [Except.ok.injEq, Prod.mk.injEq] at h
      rw [← h.2]
      simp
  | syntaxError cls args lineno =>
    cases args with
    | nil =>
      rw [show execute_code (ExecOutcome.syntaxError cls [] lineno) true fs
          = Except.error PyExn.indexError from rfl] at h
      exact absurd h (by simp)
    | cons d ds =>
      rw [show execute_code (ExecOutcome.syntaxError cls (d :: ds) lineno) true fs
          = Except.ok (fmtErrorDesc cls lineno d,
              FS.mk (some (fmtErrorDesc cls lineno d)) none) from rfl] at h
      simp only [Except.ok.injEq, Prod.mk.injEq] at h
      rw [← h.2]
      simp
  | exc cls args tb =>
    cases args with
    | nil =>
      rw [show execute_code (ExecOutcome.exc cls [] tb) true fs
          = Except.error PyExn.indexError from rfl] at h
      exact absurd h (by simp)
    | cons d ds =>
      match tb with
      | [] =>
        rw [show execute_code (ExecOutcome.exc cls (d :: ds) []) true fs
            = Except.error PyExn.indexError from rfl] at h
        exact absurd h (by simp)
      | [t0] =>
        rw [show execute_code (ExecOutcome.exc cls (d :: ds) [t0]) true fs
            = Except.error PyExn.indexError from rfl] at h
        exact absurd h (by simp)
      | t0 :: t1 :: ts =>
        rw [show execute_code (ExecOutcome.exc cls (d :: ds) (t0 :: t1 :: ts)) true fs
            = Except.ok (fmtErrorDesc cls t1 d,
                FS.mk (some (fmtErrorDesc cls t1 d)) none) from rfl] at h
        simp only [Except.ok.injEq, Prod.mk.injEq] at h
        rw [← h.2]
        simp

/-- Witness for the amended C2: a raised `ZeroDivisionError` leaves exactly
the error artifact, independent of the stale artifacts present before. -/
theorem execute_code_artifact_invariant_witness :
    (((FS.mk (some (fmtErrorDesc ("ZeroDivisionError".toList) 1 ("division by zero".toList)))
          none).errorFile ≠ none ∧
        (FS.mk (some (fmtErrorDesc ("ZeroDivisionError".toList) 1 ("division by zero".toList)))
          none).outputFile = none) ∨
      ((FS.mk (some (fmtErrorDesc ("ZeroDivisionError".toList) 1 ("division by zero".toList)))
          none).errorFile = none ∧
        (FS.mk (some (fmtErrorDesc ("ZeroDivisionError".toList) 1 ("division by zero".toList)))
          none).outputFile ≠ none) ∨
      ((FS.mk (some (fmtErrorDesc ("ZeroDivisionError".toList) 1 ("division by zero".toList)))
          none).errorFile = none ∧
        (FS.mk (some (fmtErrorDesc ("ZeroDivisionError".toList) 1 ("division by zero".toList)))
          none).outputFile = none ∧
        ExecOutcome.exc ("ZeroDivisionError".toList) [("division by zero".toList)] [0, 1]
          = ExecOutcome.ok [])) ∧
    (∀ fs3 : FS,
      execute_code (ExecOutcome.exc ("ZeroDivisionError".toList)
          [("division by zero".toList)] [0, 1]) true fs3
        = execute_code (ExecOutcome.exc ("ZeroDivisionError".toList)
            [("division by zero".toList)] [0, 1]) true
            ⟨some ("stale".toList), some ("stale".toList)⟩) :=
  execute_code_artifact_invariant
    (ExecOutcome.exc ("ZeroDivisionError".toList) [("division by zero".toList)] [0, 1])
    ⟨some ("stale".toList), some ("stale".toList)⟩
    (fmtErrorDesc ("ZeroDivisionError".toList) 1 ("division by zero".toList))
    (FS.mk (some (fmtErrorDesc ("ZeroDivisionError".toList) 1 ("division by zero".toList))) none)
    rfl

/-- Claim C6: whatever `save_output` and the artifact state, `execute_code`
returns the captured stdout on normal completion, and on a raised error
with a first detail argument (and, for a non-syntax error, a second
traceback frame) it returns the formatted description
`<kind> at line <N>: <detail>`; in particular a `ZeroDivisionError` at
line 1 with detail `division by zero` yields the exact description the
spec shows. -/
theorem execute_code_return_contract (so : Bool) (fs : FS) (out cls detail : Str)
    (ds : List Str) (lineno t0 t1 : Nat) (ts : List Nat) :
    (execute_code (ExecOutcome.ok out) so fs).map Prod.fst = Except.ok out ∧
    (execute_code (ExecOutcome.syntaxError cls (detail :: ds) lineno) so fs).map Prod.fst
      = Except.ok (fmtErrorDesc cls lineno detail) ∧
    (execute_code (ExecOutcome.exc cls (detail :: ds) (t0 :: t1 :: ts)) so fs).map Prod.fst
      = Except.ok (fmtErrorDesc cls t1 detail) ∧
    (execute_code (ExecOutcome.exc ("ZeroDivisionError".toList)
        [("division by zero".toList)] [t0, 1]) so fs).map Prod.fst
      = Except.ok ("ZeroDivisionError at line 1: division by zero".toList) := by
  refine ⟨?_, ?_, ?_, ?_⟩ <;> cases so <;> rfl

/-- Claim C10: the handler reads `err.args[0]` unconditionally, so an
exception raised by the executed code with an empty `args` tuple makes the
handler itself raise `IndexError`: `execute_code` returns no error
description but propagates the exception, and since the batch driver's row
loop does not catch it, the whole batch aborts. -/
theorem execute_code_empty_args_raises (cls : Str) (tb : List Nat) (so : Bool) (fs : FS)
    (c0 : Char) (cellRest dataset_name id datasets_path output_images_path : Str) :
    execute_code (ExecOutcome.exc cls [] tb) so fs = Except.error PyExn.indexError ∧
    process_row (c0 :: cellRest) dataset_name id datasets_path output_images_path
        (ExecOutcome.exc cls [] tb) fs = Except.error PyExn.indexError := by
  constructor
  · cases so <;> rfl
  · rfl

/-- Claim C7, as stated, is false on the code: the driver tests the raw cell
(`if code_column:`), not the extraction result, so a non-empty cell with
no fenced block is not skipped — `get_code` returns the empty string and
an *empty* script file is still written for the row (execution of the
empty script then succeeds with empty output, so no output or error file
appears). -/
theorem process_row_no_code_cex :
    get_code ("no code here".toList) = [] ∧
    process_row ("no code here".toList) ("d.csv".toList) ("id1".toList) ("ds".toList)
        ("imgs".toList) (ExecOutcome.ok []) ⟨none, none⟩
      = Except.ok ⟨some [], false, ⟨none, none⟩⟩ := by
  exact ⟨rfl, rfl⟩

/-- Claim C7 (amended): a row whose code-bearing cell is empty is skipped
with the log line and produces no script file and no change to the
output/error artifacts; only the empty *cell* is skipped — a non-empty
cell whose extraction yields no code still produces an (empty) script
file. -/
theorem process_row_empty_cell_skips (dataset_name id datasets_path output_images_path : Str)
    (outcome : ExecOutcome) (fs : FS) :
    process_row [] dataset_name id datasets_path output_images_path outcome fs
      = Except.ok ⟨none, true, fs⟩ := rfl

/-! ### Claim C8: the Display Substituter -/

theorem showTok_eq : showTok = '.' :: ("show()".toList) := rfl

theorem showTok_take_getLast :
    ∀ k : Nat, k < 7 → 1 ≤ k → ¬(showTok.take k).getLast? = some ')' := by decide

/-- No strict non-empty prefix of `".show()"` ends with `')'`. -/
theorem showTok_no_proper_end (u v : Str) (huv : u ++ v = showTok) (hu : u ≠ []) (hv : v ≠ []) :
    ¬u.getLast? = some ')' := by
  have hu2 : u = showTok.take u.length := by
    rw [← huv, List.take_left]
  have hlen : u.length + v.length = 7 := by
    have h := congrArg List.length huv
    rw [List.length_append] at h
    exact h.trans (by decide)
  have h1 : 1 ≤ u.length := List.length_pos.mpr hu
  have h2 : u.length < 7 := by
    have := List.length_pos.mpr hv
    omega
  rw [hu2]
  exact showTok_take_getLast u.length h2 h1

/-- A prefix of the output of the `replace` scan that avoids `'.'` — the
head of both the pattern and the replacement — is already a prefix of the
input. -/
theorem prefix_transport (new : Str) (hnew : new.head? = some '.') :
    ∀ (x w : Str), '.' ∉ w → w <+: replaceAux '.' ("show()".toList) new x → w <+: x := by
  have main : ∀ (n : Nat) (x w : Str), x.length ≤ n → '.' ∉ w →
      w <+: replaceAux '.' ("show()".toList) new x → w <+: x := by
    intro n
    induction n with
    | zero =>
      intro x w hx _ hp
      have : x = [] := List.length_eq_zero.mp (Nat.le_zero.mp hx)
      subst this
      rw [replaceAux_nil, List.prefix_nil] at hp
      simp [hp]
    | succ n' ih =>
      intro x w hx hdot hp
      cases x with
      | nil =>
        rw [replaceAux_nil, List.prefix_nil] at hp
        simp [hp]
      | cons c rest =>
        simp only [List.length_cons, Nat.add_le_add_iff_right] at hx
        rw [replaceAux_cons] at hp
        by_cases hc : ('.' :: ("show()".toList)).isPrefixOf (c :: rest) = true
        · rw [if_pos hc] at hp
          cases w with
          | nil => exact List.nil_prefix
          | cons w0 wt =>
            cases hn : new with
            | nil => rw [hn] at hnew; simp at hnew
            | cons nh nt =>
              rw [hn] at hnew
              simp only [List.head?_cons, Option.some.injEq] at hnew
              rw [hn, List.cons_append, List.cons_prefix_cons] at hp
              rw [hp.1, hnew] at hdot
              simp at hdot
        · rw [if_neg hc] at hp
          cases w with
          | nil => exact List.nil_prefix
          | cons w0 wt =>
            rw [List.cons_prefix_cons] at hp
            have hdot2 : '.' ∉ wt := fun hm => hdot (List.mem_cons_of_mem w0 hm)
            have hrec := ih rest wt (le_trans (by simp [List.length_drop]) hx) hdot2 hp.2
            exact List.cons_prefix_cons.mpr ⟨hp.1, hrec⟩
  intro x w
  exact main x.length x w (le_refl _)

/-- The output of the `replace` scan for `".show()"` contains no occurrence
of `".show()"`, provided the replacement text does not contain the token,
starts with `'.'` and ends with `')'`. -/
theorem replaceAux_no_show (new : Str) (h1 : hasSub new showTok = false)
    (h2 : new.head? = some '.') (h3 : new.getLast? = some ')') :
    ∀ s : Str, hasSub (replaceAux '.' ("show()".toList) new s) showTok = false := by
  have main : ∀ (n : Nat) (s : Str), s.length ≤ n →
      hasSub (replaceAux '.' ("show()".toList) new s) showTok = false := by
    intro n
    induction n with
    | zero =>
      intro s hs
      have : s = [] := List.length_eq_zero.mp (Nat.le_zero.mp hs)
      subst this
      rw [replaceAux_nil]
      rfl
    | succ n' ih =>
      intro s hs
      cases s with
      | nil =>
        rw [replaceAux_nil]
        rfl
      | cons c rest =>
        simp only [List.length_cons, Nat.add_le_add_iff_right] at hs
        rw [replaceAux_cons]
        by_cases hc : ('.' :: ("show()".toList)).isPrefixOf (c :: rest) = true
        · rw [if_pos hc]
          by_contra hcon
          rw [Bool.not_eq_false] at hcon
          rcases hasSub_append_split new hcon with hA | hB | ⟨u, v, huv, hu, hv, hsuf, hpre2⟩
          · rw [hA] at h1
            exact absurd h1 (by simp)
          · have := ih (rest.drop ("show()".toList).length)
              (le_trans (by simp [List.length_drop]) hs)
            rw [hB] at this
            exact absurd this (by simp)
          · have hlast : u.getLast? = some ')' := by
              rw [getLast?_of_suffix hsuf hu]
              exact h3
            exact showTok_no_proper_end u v huv hu hv hlast
        · rw [if_neg hc]
          rw [hasSub_cons, Bool.or_eq_false_iff]
          constructor
          · cases hp : showTok.isPrefixOf (c :: replaceAux '.' ("show()".toList) new rest) with
            | false => rfl
            | true =>
              exfalso
              have hpre := ( List.isPrefixOf_iff_prefix).mp hp
              rw [showTok_eq, List.cons_prefix_cons] at hpre
              have htail := prefix_transport new h2 rest ("show()".toList) (by decide) hpre.2
              have : showTok <+: c :: rest := by
                rw [showTok_eq]
                exact List.cons_prefix_cons.mpr ⟨hpre.1, htail⟩
              rw [← showTok_eq] at hc
              exact hc (( List.isPrefixOf_iff_prefix).mpr this)
          · exact ih rest hs
  intro s
  exact main s.length s (le_refl _)

theorem mkSavefigCall_head (output_images_path id : Str) :
    (mkSavefigCall output_images_path id).head? = some '.' := rfl

theorem mkSavefigCall_last (output_images_path id : Str) :
    (mkSavefigCall output_images_path id).getLast? = some ')' := by
  rw [mkSavefigCall, List.getLast?_append]
  rfl

theorem pyReplace_showTok (code new : Str) :
    pyReplace code showTok new = replaceAux '.' ("show()".toList) new code := rfl

/-- Claim C8: provided the built replacement text (the resolved image path
wrapped in `.savefig("...")`) does not itself contain `'.show()'`, the
substitution replaces every occurrence of `'.show()'` by the file-saving
call — the result of `replace_show_with_savefig` never contains a
remaining `'.show()'` occurrence — and code without the token is returned
unchanged. -/
theorem replace_show_removes_show (id output_images_path : Str)
    (hpath : hasSub (mkSavefigCall output_images_path id) showTok = false) (code : Str) :
    hasSub (replace_show_with_savefig code id output_images_path) showTok = false ∧
    (hasSub code showTok = true →
      replace_show_with_savefig code id output_images_path
        = pyReplace code showTok (mkSavefigCall output_images_path id)) ∧
    (hasSub code showTok = false →
      replace_show_with_savefig code id output_images_path = code) := by
  by_cases hc : hasSub code showTok = true
  · rw [replace_show_with_savefig, if_pos hc]
    refine ⟨?_, fun _ => rfl, fun hfalse => absurd hc (by simp [hfalse])⟩
    rw [pyReplace_showTok]
    exact replaceAux_no_show (mkSavefigCall output_images_path id) hpath
      (mkSavefigCall_head output_images_path id) (mkSavefigCall_last output_images_path id) code
  · have hc2 : hasSub code showTok = false := by
      cases h : hasSub code showTok
      · rfl
      · exact absurd h hc
    rw [replace_show_with_savefig, if_neg (by simp [hc2])]
    exact ⟨hc2, fun htrue => absurd htrue hc, fun _ => rfl⟩

/-- Witness for C8 at the spec's example `fig.show()`. -/
theorem replace_show_removes_show_witness :
    hasSub (replace_show_with_savefig ("fig.show()".toList) ("id7".toList) ("imgs".toList))
        showTok = false ∧
    (hasSub ("fig.show()".toList) showTok = true →
      replace_show_with_savefig ("fig.show()".toList) ("id7".toList) ("imgs".toList)
        = pyReplace ("fig.show()".toList) showTok (mkSavefigCall ("imgs".toList) ("id7".toList))) ∧
    (hasSub ("fig.show()".toList) showTok = false →
      replace_show_with_savefig ("fig.show()".toList) ("id7".toList) ("imgs".toList)
        = "fig.show()".toList) :=
  replace_show_removes_show ("id7".toList) ("imgs".toList) (by decide) ("fig.show()".toList)
